import Mathlib

/-
Shallow embedding of the simulation core of the LISA/ISA returns simulator
(accounts.py and portfolio.py): the sigmoid penalty function, compound-interest
projection of accounts, the LISA bonus adjustment, fund allocation with the
LISA cap, the penalized portfolio simulation, and the brute-force optimal-ratio
search. Python floats are modelled as real numbers; list indexing that can fail
in Python (last element of an empty list, numpy argmax of an empty array) is
modelled with Option.
-/

noncomputable section

open Filter

/-- Embedding of penalty_function from accounts.py: shifted_x is
(-x + central_point) / scale, the sigmoid is 1 / (1 + e ^ shifted_x), and the
output is max_value * sigmoid. -/
def penalty_function (x central_point max_value scale : ℝ) : ℝ :=
  let shifted_x := (-x + central_point) / scale
  let sigmoid := 1 / (1 + Real.exp shifted_x)
  max_value * sigmoid

/-- The loop of Account.compound_interest in accounts.py: starting from the
running balance total_money, each year does
total_money = (total_money + yearly_contribution) * interest_rate and appends
the new balance. -/
def compound_interest_loop (yearly_contribution interest_rate total_money : ℝ) :
    ℕ → List ℝ
  | 0 => []
  | n + 1 =>
    let new_total := (total_money + yearly_contribution) * interest_rate
    new_total :: compound_interest_loop yearly_contribution interest_rate new_total n

/-- Account.compound_interest from accounts.py: the loop started at balance 0. -/
def compound_interest (yearly_contribution interest_rate : ℝ) (num_years : ℕ) :
    List ℝ :=
  compound_interest_loop yearly_contribution interest_rate 0 num_years

/-- The contribution adjustment performed by LISA init in accounts.py:
adjusted_contribution = yearly_contribution + min(1000, 0.25 * yearly_contribution). -/
def lisa_adjusted_contribution (yearly_contribution : ℝ) : ℝ :=
  yearly_contribution + min 1000 (0.25 * yearly_contribution)

/-- Portfolio.allocate_funds from portfolio.py: the (lisa, isa) split of the
yearly investment by the lisa ratio, with any excess of the lisa allocation
over the cap moved to the isa side. The warning message has no effect on the
returned values and is not modelled. -/
def allocate_funds (yearly_investment lisa_ratio lisa_cap : ℝ) : ℝ × ℝ :=
  let lisa_allocation := yearly_investment * lisa_ratio
  let isa_allocation := yearly_investment * (1 - lisa_ratio)
  if lisa_allocation > lisa_cap then
    (lisa_cap, isa_allocation + (lisa_allocation - lisa_cap))
  else
    (lisa_allocation, isa_allocation)

/-- LISA.apply_emigration_penalty from accounts.py: each balance is replaced by
money * (1 - emigration_prob * penalty_function money), the penalty using the
default parameters central_point 20000, max_value 0.5, scale 2000. -/
def apply_emigration_penalty (money_list : List ℝ) (emigration_prob : ℝ) :
    List ℝ :=
  money_list.map
    (fun money => money * (1 - emigration_prob * penalty_function money 20000 0.5 2000))

/-- Portfolio.run_simulation from portfolio.py: allocate funds, build the LISA
account with the bonus-adjusted contribution and the ISA account, compound both
over num_years, optionally apply the emigration penalty to the LISA series,
and add the two series element-wise. -/
def run_simulation (yearly_investment interest_rate lisa_ratio lisa_cap : ℝ)
    (num_years : ℕ) (emigration_prob : ℝ) (apply_penalty : Bool) : List ℝ :=
  let alloc := allocate_funds yearly_investment lisa_ratio lisa_cap
  let lisa_amount_list :=
    compound_interest (lisa_adjusted_contribution alloc.1) interest_rate num_years
  let isa_amount_list := compound_interest alloc.2 interest_rate num_years
  let adjusted_lisa_list :=
    if apply_penalty then apply_emigration_penalty lisa_amount_list emigration_prob
    else lisa_amount_list
  List.zipWith (fun l i => l + i) adjusted_lisa_list isa_amount_list

/-- Model of numpy argmax carrying the maximal value: returns the index of the
first occurrence of the maximum together with that maximum, and none on the
empty list (where numpy argmax raises). -/
def np_argmax_val : List ℝ → Option (ℕ × ℝ)
  | [] => none
  | x :: xs =>
    match np_argmax_val xs with
    | none => some (0, x)
    | some (j, v) => if x < v then some (j + 1, v) else some (0, x)

/-- Model of numpy argmax: index of the first occurrence of the maximum, none
on the empty list. -/
def np_argmax (l : List ℝ) : Option ℕ :=
  (np_argmax_val l).map Prod.fst

/-- The function optimal_ratio from portfolio.py: for each candidate ratio the
final entry of the penalized simulation (none when the series is empty, where
Python raises IndexError), then the ratio at the argmax index (none on an empty
candidate list, where numpy argmax raises). The Portfolio objects are built
with the default cap 4000 and run_simulation with the default
apply_penalty=True. -/
def optimal_ratio (yearly_investment interest_rate : ℝ) (num_years : ℕ)
    (lisa_ratios : List ℝ) (emigration_prob : ℝ) : Option ℝ := do
  let results ← lisa_ratios.mapM
    (fun r =>
      (run_simulation yearly_investment interest_rate r 4000 num_years
          emigration_prob true).getLast?)
  let best_value_index ← np_argmax results
  lisa_ratios[best_value_index]?

/-! Helper lemmas about the embedded operations. -/

lemma compound_interest_loop_length (c r : ℝ) :
    ∀ (n : ℕ) (t : ℝ), (compound_interest_loop c r t n).length = n := by
  intro n
  induction n with
  | zero => intro t; rfl
  | succ n ih => intro t; simp [compound_interest_loop, ih]

lemma compound_interest_length (c r : ℝ) (n : ℕ) :
    (compound_interest c r n).length = n :=
  compound_interest_loop_length c r n 0

lemma compound_interest_loop_getD_zero (c r t : ℝ) (n : ℕ) (hn : 0 < n) :
    (compound_interest_loop c r t n).getD 0 0 = (t + c) * r := by
  cases n with
  | zero => exact absurd hn (by simp)
  | succ n => rfl

lemma compound_interest_loop_getD_succ (c r : ℝ) :
    ∀ (n y : ℕ) (t : ℝ), y + 1 < n →
      (compound_interest_loop c r t n).getD (y + 1) 0 =
        ((compound_interest_loop c r t n).getD y 0 + c) * r := by
  intro n
  induction n with
  | zero => intro y t h; exact absurd h (by simp)
  | succ n ih =>
    intro y t h
    cases y with
    | zero =>
      have hn : 0 < n := by omega
      show (compound_interest_loop c r ((t + c) * r) n).getD 0 0 =
        ((t + c) * r + c) * r
      exact compound_interest_loop_getD_zero c r _ n hn
    | succ z =>
      have h2 : z + 1 < n := by omega
      show (compound_interest_loop c r ((t + c) * r) n).getD (z + 1) 0 =
        ((compound_interest_loop c r ((t + c) * r) n).getD z 0 + c) * r
      exact ih z _ h2

lemma penalty_function_nonneg (b c m s : ℝ) (hm : 0 ≤ m) :
    0 ≤ penalty_function b c m s := by
  have h : 0 < 1 + Real.exp ((-b + c) / s) := by positivity
  exact mul_nonneg hm (by positivity)

lemma penalty_function_le (b c m s : ℝ) (hm : 0 ≤ m) :
    penalty_function b c m s ≤ m := by
  show m * (1 / (1 + Real.exp ((-b + c) / s))) ≤ m
  have h : 0 < 1 + Real.exp ((-b + c) / s) := by positivity
  have h1 : 1 / (1 + Real.exp ((-b + c) / s)) ≤ 1 := by
    rw [div_le_one h]
    have := Real.exp_pos ((-b + c) / s)
    linarith
  calc m * (1 / (1 + Real.exp ((-b + c) / s))) ≤ m * 1 :=
        mul_le_mul_of_nonneg_left h1 hm
    _ = m := mul_one m

/-! Theorems corresponding to the specification claims. -/

/-- C4: compound_interest returns a series of exactly num_years entries
satisfying the recurrence balance(y) = (balance(y-1) + contribution) * rate
with starting balance 0; zero years yields the empty series; and the account
with contribution 1000 and rate 1.1 projected over 3 years yields
1100, 2310, 3641. -/
theorem compound_interest_spec (c r : ℝ) (n : ℕ) :
    (compound_interest c r n).length = n ∧
    (∀ y, y < n → (compound_interest c r n).getD y 0 =
      ((if y = 0 then 0 else (compound_interest c r n).getD (y - 1) 0) + c) * r) ∧
    compound_interest c r 0 = [] ∧
    compound_interest (1000 : ℝ) 1.1 3 = [1100, 2310, 3641] := by
  refine ⟨compound_interest_length c r n, ?_, rfl, ?_⟩
  · intro y hy
    cases y with
    | zero =>
      simp only [if_pos rfl]
      exact compound_interest_loop_getD_zero c r 0 n hy
    | succ z =>
      simp only [Nat.succ_ne_zero, if_false, Nat.add_sub_cancel]
      exact compound_interest_loop_getD_succ c r n z 0 hy
  · have h : compound_interest (1000 : ℝ) 1.1 3 =
        [((0 : ℝ) + 1000) * 1.1,
         (((0 : ℝ) + 1000) * 1.1 + 1000) * 1.1,
         ((((0 : ℝ) + 1000) * 1.1 + 1000) * 1.1 + 1000) * 1.1] := rfl
    rw [h]
    norm_num

/-- C5: the LISA constructor sets the effective yearly contribution to
contribution + min(1000, 0.25 * contribution); for contribution 4000 this is
5000, and one projected year at rate 1.1 yields 5500. -/
theorem lisa_adjusted_contribution_spec (c : ℝ) (hc : 0 ≤ c) :
    lisa_adjusted_contribution c = c + min 1000 (0.25 * c) ∧
    lisa_adjusted_contribution 4000 = 5000 ∧
    compound_interest (lisa_adjusted_contribution 4000) 1.1 1 = [5500] := by
  have h4 : lisa_adjusted_contribution (4000 : ℝ) = 5000 := by
    show (4000 : ℝ) + min 1000 (0.25 * 4000) = 5000
    norm_num
  refine ⟨rfl, h4, ?_⟩
  have h : compound_interest (lisa_adjusted_contribution 4000) 1.1 1 =
      [((0 : ℝ) + lisa_adjusted_contribution 4000) * 1.1] := rfl
  rw [h, h4]
  norm_num

/-- Witness for C5 at contribution 4000. -/
theorem lisa_adjusted_contribution_spec_witness :
    (0 : ℝ) ≤ 4000 ∧
    (lisa_adjusted_contribution 4000 = 4000 + min 1000 (0.25 * 4000) ∧
      lisa_adjusted_contribution 4000 = 5000 ∧
      compound_interest (lisa_adjusted_contribution 4000) 1.1 1 = [5500]) :=
  ⟨by norm_num, lisa_adjusted_contribution_spec 4000 (by norm_num)⟩

/-- C3: allocate_funds keeps the primary allocation at or below the cap and
conserves the total investment exactly, and the concrete split of 10000 at
ratio 0.5 with cap 4000 is (4000, 6000). -/
theorem allocate_funds_spec (inv ratio cap : ℝ) (hinv : 0 ≤ inv)
    (h0 : 0 ≤ ratio) (h1 : ratio ≤ 1) (hcap : 0 ≤ cap) :
    (allocate_funds inv ratio cap).1 ≤ cap ∧
    (allocate_funds inv ratio cap).1 + (allocate_funds inv ratio cap).2 = inv ∧
    allocate_funds 10000 0.5 4000 = (4000, 6000) := by
  by_cases h : inv * ratio > cap
  · refine ⟨?_, ?_, ?_⟩
    · simp [allocate_funds, h]
    · simp [allocate_funds, h]; ring
    · norm_num [allocate_funds]
  · refine ⟨?_, ?_, ?_⟩
    · simp only [allocate_funds, if_neg h]
      exact le_of_not_lt h
    · simp [allocate_funds, h]; ring
    · norm_num [allocate_funds]

/-- Witness for C3 at investment 10000, ratio 0.5, cap 4000. -/
theorem allocate_funds_spec_witness :
    ((0 : ℝ) ≤ 10000 ∧ (0 : ℝ) ≤ 0.5 ∧ (0.5 : ℝ) ≤ 1 ∧ (0 : ℝ) ≤ 4000) ∧
    ((allocate_funds 10000 0.5 4000).1 ≤ 4000 ∧
      (allocate_funds 10000 0.5 4000).1 + (allocate_funds 10000 0.5 4000).2 = 10000 ∧
      allocate_funds 10000 0.5 4000 = (4000, 6000)) :=
  ⟨⟨by norm_num, by norm_num, by norm_num, by norm_num⟩,
    allocate_funds_spec 10000 0.5 4000 (by norm_num) (by norm_num) (by norm_num)
      (by norm_num)⟩

/-- C9: for positive max_value and scale the penalty lies between 0 and
max_value, and at the central point it is exactly max_value / 2. -/
theorem penalty_function_range (b central m s : ℝ) (hm : 0 < m) (hs : 0 < s) :
    0 ≤ penalty_function b central m s ∧
    penalty_function b central m s ≤ m ∧
    penalty_function central central m s = m / 2 := by
  refine ⟨penalty_function_nonneg b central m s hm.le,
    penalty_function_le b central m s hm.le, ?_⟩
  show m * (1 / (1 + Real.exp ((-central + central) / s))) = m / 2
  rw [neg_add_cancel, zero_div, Real.exp_zero]
  norm_num
  ring

/-- Witness for C9 at balance 0, central point 20000, max 0.5, scale 2000. -/
theorem penalty_function_range_witness :
    ((0 : ℝ) < 0.5 ∧ (0 : ℝ) < 2000) ∧
    (0 ≤ penalty_function 0 20000 0.5 2000 ∧
      penalty_function 0 20000 0.5 2000 ≤ 0.5 ∧
      penalty_function 20000 20000 0.5 2000 = 0.5 / 2) :=
  ⟨⟨by norm_num, by norm_num⟩,
    penalty_function_range 0 20000 0.5 2000 (by norm_num) (by norm_num)⟩

/-- C1 counterexample: at balance 1 with central point 0, max value 1 and
scale 1 the code's penalty differs from the claimed formula
max / (1 + exp((balance - central) / scale)), and the penalty is strictly
larger at balance 1 than at balance 0, refuting monotone decrease. -/
theorem penalty_function_claim_counterexample :
    penalty_function 1 0 1 1 ≠ 1 / (1 + Real.exp ((1 - 0) / 1)) ∧
    penalty_function 0 0 1 1 < penalty_function 1 0 1 1 := by
  constructor
  · show (1 : ℝ) * (1 / (1 + Real.exp ((-1 + 0) / 1))) ≠
      1 / (1 + Real.exp ((1 - 0) / 1))
    have h1 : ((-1 : ℝ) + 0) / 1 = -1 := by norm_num
    have h2 : ((1 : ℝ) - 0) / 1 = 1 := by norm_num
    rw [h1, h2, one_mul]
    have hlt : Real.exp (-1) < Real.exp 1 := Real.exp_lt_exp.mpr (by norm_num)
    have hpos2 : 0 < 1 + Real.exp (-1) := by positivity
    have : 1 / (1 + Real.exp 1) < 1 / (1 + Real.exp (-1)) :=
      one_div_lt_one_div_of_lt hpos2 (by linarith)
    exact ne_of_gt this
  · show (1 : ℝ) * (1 / (1 + Real.exp ((-0 + 0) / 1))) <
      1 * (1 / (1 + Real.exp ((-1 + 0) / 1)))
    have h1 : ((-0 : ℝ) + 0) / 1 = 0 := by norm_num
    have h2 : ((-1 : ℝ) + 0) / 1 = -1 := by norm_num
    rw [h1, h2, one_mul, one_mul, Real.exp_zero]
    have hlt : Real.exp (-1) < 1 := by
      rw [show (1 : ℝ) = Real.exp 0 from (Real.exp_zero).symm]
      exact Real.exp_lt_exp.mpr (by norm_num)
    have hpos2 : 0 < 1 + Real.exp (-1) := by positivity
    apply one_div_lt_one_div_of_lt hpos2
    linarith

/-- C1 amended: penalty_function equals
max_value / (1 + exp((central - balance) / scale)); for positive max_value and
scale it is strictly monotonically increasing in the balance, tends to 0 as
the balance tends to negative infinity, and tends to max_value as the balance
tends to positive infinity. -/
theorem penalty_function_amended (central m s : ℝ) (hm : 0 < m) (hs : 0 < s) :
    (∀ b, penalty_function b central m s =
      m / (1 + Real.exp ((central - b) / s))) ∧
    StrictMono (fun x => penalty_function x central m s) ∧
    Tendsto (fun x => penalty_function x central m s) atBot (nhds 0) ∧
    Tendsto (fun x => penalty_function x central m s) atTop (nhds m) := by
  have he : (fun x => penalty_function x central m s) =
      fun x : ℝ => m / (1 + Real.exp ((-x + central) / s)) := by
    funext x
    show m * (1 / _) = _
    rw [mul_one_div]
  refine ⟨?_, ?_, ?_, ?_⟩
  · intro b
    show m * (1 / (1 + Real.exp ((-b + central) / s))) = _
    rw [mul_one_div]
    ring_nf
  · intro x y hxy
    show m * (1 / (1 + Real.exp ((-x + central) / s))) <
      m * (1 / (1 + Real.exp ((-y + central) / s)))
    have hexp : Real.exp ((-y + central) / s) < Real.exp ((-x + central) / s) := by
      apply Real.exp_lt_exp.mpr
      apply div_lt_div_of_pos_right ?_ hs
      linarith
    have hpos : 0 < 1 + Real.exp ((-y + central) / s) := by positivity
    have h1 := one_div_lt_one_div_of_lt hpos (by linarith :
      1 + Real.exp ((-y + central) / s) < 1 + Real.exp ((-x + central) / s))
    exact mul_lt_mul_of_pos_left h1 hm
  · have h1 : Tendsto (fun x : ℝ => (-x + central) / s) atBot atTop := by
      apply Tendsto.atTop_div_const hs
      exact tendsto_atTop_add_const_right _ central tendsto_neg_atBot_atTop
    have h2 : Tendsto (fun x : ℝ => 1 + Real.exp ((-x + central) / s)) atBot
        atTop :=
      tendsto_atTop_add_const_left _ 1 (Real.tendsto_exp_atTop.comp h1)
    have h3 := Tendsto.div_atTop (tendsto_const_nhds (x := m)) h2
    rw [he]
    exact h3
  · have h1 : Tendsto (fun x : ℝ => (-x + central) / s) atTop atBot := by
      apply Tendsto.atBot_div_const hs
      exact tendsto_atBot_add_const_right _ central tendsto_neg_atTop_atBot
    have h2 : Tendsto (fun x : ℝ => 1 + Real.exp ((-x + central) / s)) atTop
        (nhds 1) := by
      have := Tendsto.add (tendsto_const_nhds (x := (1 : ℝ)))
        (Real.tendsto_exp_atBot.comp h1)
      simpa using this
    have h3 := Tendsto.div (tendsto_const_nhds (x := m)) h2 one_ne_zero
    rw [he]
    simpa using h3

/-- Witness for the amended C1 at central point 20000, max 0.5, scale 2000. -/
theorem penalty_function_amended_witness :
    ((0 : ℝ) < 0.5 ∧ (0 : ℝ) < 2000) ∧
    ((∀ b, penalty_function b 20000 0.5 2000 =
        0.5 / (1 + Real.exp ((20000 - b) / 2000))) ∧
      StrictMono (fun x => penalty_function x 20000 0.5 2000) ∧
      Tendsto (fun x => penalty_function x 20000 0.5 2000) atBot (nhds 0) ∧
      Tendsto (fun x => penalty_function x 20000 0.5 2000) atTop (nhds 0.5)) :=
  ⟨⟨by norm_num, by norm_num⟩,
    penalty_function_amended 20000 0.5 2000 (by norm_num) (by norm_num)⟩

lemma run_simulation_penalty_eq (inv rate ratio cap prob : ℝ) (n : ℕ) :
    run_simulation inv rate ratio cap n prob true =
      List.zipWith (fun l i => l + i)
        ((compound_interest
            (lisa_adjusted_contribution (allocate_funds inv ratio cap).1) rate n).map
          (fun money => money * (1 - prob * penalty_function money 20000 0.5 2000)))
        (compound_interest (allocate_funds inv ratio cap).2 rate n) := rfl

lemma getD_map (g : ℝ → ℝ) :
    ∀ (l : List ℝ) (j : ℕ), j < l.length → (l.map g).getD j 0 = g (l.getD j 0) := by
  intro l
  induction l with
  | nil => intro j h; exact absurd h (by simp)
  | cons a l ih =>
    intro j h
    cases j with
    | zero => rfl
    | succ z => exact ih z (by simpa using h)

lemma getD_zipWith_map (f : ℝ → ℝ) :
    ∀ (l1 l2 : List ℝ) (y : ℕ), y < l1.length → y < l2.length →
      (List.zipWith (fun a b => a + b) (l1.map f) l2).getD y 0 =
        f (l1.getD y 0) + l2.getD y 0 := by
  intro l1
  induction l1 with
  | nil => intro l2 y h; exact absurd h (by simp)
  | cons a l1 ih =>
    intro l2 y h1 h2
    cases l2 with
    | nil => exact absurd h2 (by simp)
    | cons b l2 =>
      cases y with
      | zero => rfl
      | succ z => exact ih l2 z (by simpa using h1) (by simpa using h2)

lemma run_simulation_length (inv rate ratio cap prob : ℝ) (n : ℕ) (b : Bool) :
    (run_simulation inv rate ratio cap n prob b).length = n := by
  cases b with
  | true =>
    rw [run_simulation_penalty_eq]
    rw [List.length_zipWith, List.length_map, compound_interest_length,
      compound_interest_length, min_self]
  | false =>
    show (List.zipWith (fun l i => l + i)
      (compound_interest _ rate n) (compound_interest _ rate n)).length = n
    rw [List.length_zipWith, compound_interest_length, compound_interest_length,
      min_self]

/-- C2: with the penalty enabled, run_simulation returns a series of length
num_years whose entry for year y is lisa(y) * (1 - prob * penalty(lisa(y)))
plus isa(y), where lisa and isa are the compound-interest series of the
bonus-adjusted and plain accounts built from the allocated split, each year's
penalty depending only on that year's own unadjusted LISA balance. -/
theorem run_simulation_spec (inv rate ratio cap prob : ℝ) (n : ℕ)
    (hp0 : 0 ≤ prob) (hp1 : prob ≤ 1) :
    (run_simulation inv rate ratio cap n prob true).length = n ∧
    ∀ y, y < n →
      (run_simulation inv rate ratio cap n prob true).getD y 0 =
        (compound_interest
            (lisa_adjusted_contribution (allocate_funds inv ratio cap).1) rate n).getD y 0 *
          (1 - prob * penalty_function
            ((compound_interest
               (lisa_adjusted_contribution (allocate_funds inv ratio cap).1) rate n).getD y 0)
            20000 0.5 2000) +
        (compound_interest (allocate_funds inv ratio cap).2 rate n).getD y 0 := by
  refine ⟨run_simulation_length inv rate ratio cap prob n true, ?_⟩
  intro y hy
  rw [run_simulation_penalty_eq]
  exact getD_zipWith_map _ _ _ y
    (by rw [compound_interest_length]; exact hy)
    (by rw [compound_interest_length]; exact hy)

/-- Witness for C2 at investment 10000, rate 1.1, ratio 0.5, cap 4000,
probability 1/2, over 2 years. -/
theorem run_simulation_spec_witness :
    ((0 : ℝ) ≤ 1 / 2 ∧ (1 / 2 : ℝ) ≤ 1) ∧
    ((run_simulation 10000 1.1 0.5 4000 2 (1 / 2) true).length = 2 ∧
      ∀ y, y < 2 →
        (run_simulation 10000 1.1 0.5 4000 2 (1 / 2) true).getD y 0 =
          (compound_interest
              (lisa_adjusted_contribution (allocate_funds 10000 0.5 4000).1) 1.1 2).getD y 0 *
            (1 - 1 / 2 * penalty_function
              ((compound_interest
                 (lisa_adjusted_contribution (allocate_funds 10000 0.5 4000).1) 1.1 2).getD y 0)
              20000 0.5 2000) +
          (compound_interest (allocate_funds 10000 0.5 4000).2 1.1 2).getD y 0) :=
  ⟨⟨by norm_num, by norm_num⟩,
    run_simulation_spec 10000 1.1 0.5 4000 (1 / 2) 2 (by norm_num) (by norm_num)⟩

lemma compound_interest_loop_nonneg (c r : ℝ) (hc : 0 ≤ c) (hr : 0 ≤ r) :
    ∀ (n : ℕ) (t : ℝ), 0 ≤ t → ∀ x ∈ compound_interest_loop c r t n, 0 ≤ x := by
  intro n
  induction n with
  | zero => intro t _ x hx; simp [compound_interest_loop] at hx
  | succ n ih =>
    intro t ht x hx
    have hnt : 0 ≤ (t + c) * r := mul_nonneg (by linarith) hr
    simp only [compound_interest_loop, List.mem_cons] at hx
    rcases hx with rfl | hx
    · exact hnt
    · exact ih _ hnt x hx

lemma compound_interest_nonneg (c r : ℝ) (hc : 0 ≤ c) (hr : 0 ≤ r) (n : ℕ) :
    ∀ x ∈ compound_interest c r n, 0 ≤ x :=
  compound_interest_loop_nonneg c r hc hr n 0 le_rfl

lemma allocate_funds_nonneg (inv ratio cap : ℝ) (hinv : 0 ≤ inv)
    (h0 : 0 ≤ ratio) (h1 : ratio ≤ 1) (hcap : 0 ≤ cap) :
    0 ≤ (allocate_funds inv ratio cap).1 ∧ 0 ≤ (allocate_funds inv ratio cap).2 := by
  have ha : 0 ≤ inv * ratio := mul_nonneg hinv h0
  have hb : 0 ≤ inv * (1 - ratio) := mul_nonneg hinv (by linarith)
  by_cases h : inv * ratio > cap
  · constructor
    · simpa [allocate_funds, h] using hcap
    · simp only [allocate_funds, if_pos h]
      have : 0 ≤ inv * ratio - cap := by linarith
      linarith
  · constructor
    · simpa [allocate_funds, h] using ha
    · simpa [allocate_funds, h] using hb

lemma lisa_adjusted_contribution_nonneg (c : ℝ) (hc : 0 ≤ c) :
    0 ≤ lisa_adjusted_contribution c := by
  have h : (0 : ℝ) ≤ min 1000 (0.25 * c) := le_min (by norm_num) (by linarith)
  show 0 ≤ c + min 1000 (0.25 * c)
  linarith

lemma zipWith_add_nonneg :
    ∀ (l1 l2 : List ℝ), (∀ x ∈ l1, 0 ≤ x) → (∀ x ∈ l2, 0 ≤ x) →
      ∀ x ∈ List.zipWith (fun a b => a + b) l1 l2, 0 ≤ x := by
  intro l1
  induction l1 with
  | nil => intro l2 _ _ x hx; simp at hx
  | cons a l1 ih =>
    intro l2 h1 h2 x hx
    cases l2 with
    | nil => simp at hx
    | cons b l2 =>
      simp only [List.zipWith_cons_cons, List.mem_cons] at hx
      rcases hx with rfl | hx
      · exact add_nonneg (h1 a (by simp)) (h2 b (by simp))
      · exact ih l2 (fun z hz => h1 z (by simp [hz])) (fun z hz => h2 z (by simp [hz]))
          x hx

lemma apply_emigration_penalty_nonneg (l : List ℝ) (prob : ℝ)
    (hp0 : 0 ≤ prob) (hp1 : prob ≤ 1) (hl : ∀ x ∈ l, 0 ≤ x) :
    ∀ x ∈ apply_emigration_penalty l prob, 0 ≤ x := by
  intro x hx
  simp only [apply_emigration_penalty, List.mem_map] at hx
  obtain ⟨money, hmem, rfl⟩ := hx
  have h0 : 0 ≤ money := hl money hmem
  have hpen0 : 0 ≤ penalty_function money 20000 0.5 2000 :=
    penalty_function_nonneg money 20000 0.5 2000 (by norm_num)
  have hpenle : penalty_function money 20000 0.5 2000 ≤ 0.5 :=
    penalty_function_le money 20000 0.5 2000 (by norm_num)
  have hfac : prob * penalty_function money 20000 0.5 2000 ≤ 1 := by
    calc prob * penalty_function money 20000 0.5 2000 ≤ 1 * 0.5 :=
          mul_le_mul hp1 hpenle hpen0 zero_le_one
      _ ≤ 1 := by norm_num
  exact mul_nonneg h0 (by linarith)

/-- C10: every entry of a compound-interest series with nonnegative
contribution and rate is nonnegative, and consequently every entry of the
penalized portfolio simulation with parameters in range is nonnegative. -/
theorem simulation_nonneg (c r inv rate ratio cap prob : ℝ) (n m : ℕ)
    (hc : 0 ≤ c) (hr : 0 ≤ r) (hinv : 0 ≤ inv) (hrate : 0 ≤ rate)
    (hratio0 : 0 ≤ ratio) (hratio1 : ratio ≤ 1) (hcap : 0 ≤ cap)
    (hp0 : 0 ≤ prob) (hp1 : prob ≤ 1) :
    (∀ x ∈ compound_interest c r n, 0 ≤ x) ∧
    (∀ x ∈ run_simulation inv rate ratio cap m prob true, 0 ≤ x) := by
  refine ⟨compound_interest_nonneg c r hc hr n, ?_⟩
  obtain ⟨hl1, hl2⟩ := allocate_funds_nonneg inv ratio cap hinv hratio0 hratio1 hcap
  have hlc : 0 ≤ lisa_adjusted_contribution (allocate_funds inv ratio cap).1 :=
    lisa_adjusted_contribution_nonneg _ hl1
  have hlisa := compound_interest_nonneg _ rate hlc hrate m
  have hisa := compound_interest_nonneg _ rate hl2 hrate m
  have hpen := apply_emigration_penalty_nonneg _ prob hp0 hp1 hlisa
  intro x hx
  refine zipWith_add_nonneg _ _ hpen hisa x ?_
  exact hx

/-- Witness for C10 with all parameters zero. -/
theorem simulation_nonneg_witness :
    (∀ x ∈ compound_interest 0 0 1, 0 ≤ x) ∧
    (∀ x ∈ run_simulation 0 0 0 0 1 0 true, 0 ≤ x) :=
  simulation_nonneg 0 0 0 0 0 0 0 1 1 le_rfl le_rfl le_rfl le_rfl le_rfl
    zero_le_one le_rfl le_rfl zero_le_one

lemma np_argmax_val_spec :
    ∀ (l : List ℝ), l ≠ [] →
      ∃ j v, np_argmax_val l = some (j, v) ∧ j < l.length ∧ l.getD j 0 = v ∧
        (∀ k, k < l.length → l.getD k 0 ≤ v) ∧ (∀ k, k < j → l.getD k 0 < v) := by
  intro l
  induction l with
  | nil => intro h; exact absurd rfl h
  | cons x xs ih =>
    intro _
    by_cases hxs : xs = []
    · subst hxs
      refine ⟨0, x, rfl, by simp, rfl, ?_, by omega⟩
      intro k hk
      have hk0 : k = 0 := by
        simp only [List.length_cons, List.length_nil] at hk
        omega
      subst hk0
      exact le_rfl
    · obtain ⟨j, v, hval, hjlen, hjv, hmax, hfirst⟩ := ih hxs
      by_cases hcmp : x < v
      · refine ⟨j + 1, v, ?_, by simpa using hjlen, hjv, ?_, ?_⟩
        · simp only [np_argmax_val, hval]
          rw [if_pos hcmp]
        · intro k hk
          cases k with
          | zero => exact hcmp.le
          | succ z => exact hmax z (by simpa using hk)
        · intro k hk
          cases k with
          | zero => exact hcmp
          | succ z => exact hfirst z (by omega)
      · refine ⟨0, x, ?_, by simp, rfl, ?_, by omega⟩
        · simp only [np_argmax_val, hval]
          rw [if_neg hcmp]
        · intro k hk
          cases k with
          | zero => exact le_rfl
          | succ z =>
            have hz := hmax z (by simpa using hk)
            have hvx : v ≤ x := le_of_not_lt hcmp
            calc (x :: xs).getD (z + 1) 0 = xs.getD z 0 := rfl
              _ ≤ v := hz
              _ ≤ x := hvx

lemma mapM_eq_some_map (f : ℝ → Option ℝ) (g : ℝ → ℝ) :
    ∀ (l : List ℝ), (∀ a ∈ l, f a = some (g a)) →
      List.mapM f l = some (l.map g) := by
  intro l
  induction l with
  | nil => intro _; rfl
  | cons a l ih =>
    intro h
    rw [List.mapM_cons, h a (by simp), ih (fun b hb => h b (by simp [hb]))]
    rfl

lemma getLast?_eq_some_getLastD (l : List ℝ) (h : l ≠ []) :
    l.getLast? = some (l.getLastD 0) := by
  cases l with
  | nil => exact absurd rfl h
  | cons a l =>
    rw [List.getLastD_eq_getLast?]
    cases hl : (a :: l).getLast? with
    | none => simp [List.getLast?_eq_none_iff] at hl
    | some v => rfl

/-- C6: for at least one simulated year and a non-empty candidate list,
optimal_ratio returns the candidate whose final-year portfolio value is
maximal, and on ties the first-encountered maximum in candidate order. -/
theorem optimal_ratio_spec (inv rate prob : ℝ) (n : ℕ) (hn : 1 ≤ n)
    (ratios : List ℝ) (hne : ratios ≠ []) :
    ∃ i, i < ratios.length ∧
      optimal_ratio inv rate n ratios prob = some (ratios.getD i 0) ∧
      (∀ j, j < ratios.length →
        (run_simulation inv rate (ratios.getD j 0) 4000 n prob true).getLastD 0 ≤
          (run_simulation inv rate (ratios.getD i 0) 4000 n prob true).getLastD 0) ∧
      (∀ j, j < i →
        (run_simulation inv rate (ratios.getD j 0) 4000 n prob true).getLastD 0 <
          (run_simulation inv rate (ratios.getD i 0) 4000 n prob true).getLastD 0) := by
  have hfg : ∀ a ∈ ratios,
      (run_simulation inv rate a 4000 n prob true).getLast? =
        some ((run_simulation inv rate a 4000 n prob true).getLastD 0) := by
    intro a _
    apply getLast?_eq_some_getLastD
    intro hE
    have hlen := run_simulation_length inv rate a 4000 prob n true
    rw [hE] at hlen
    simp only [List.length_nil] at hlen
    omega
  have hmapM :
      ratios.mapM
          (fun r => (run_simulation inv rate r 4000 n prob true).getLast?) =
        some (ratios.map
          (fun r => (run_simulation inv rate r 4000 n prob true).getLastD 0)) :=
    mapM_eq_some_map _ _ ratios hfg
  have hmapne :
      ratios.map (fun r => (run_simulation inv rate r 4000 n prob true).getLastD 0) ≠
        [] := by
    simpa using hne
  obtain ⟨j, v, hval, hjlen, hjv, hmax, hfirst⟩ := np_argmax_val_spec _ hmapne
  rw [List.length_map] at hjlen
  have hargmax :
      np_argmax (ratios.map
        (fun r => (run_simulation inv rate r 4000 n prob true).getLastD 0)) =
        some j := by
    rw [np_argmax, hval]
    rfl
  have hgj :
      (ratios.map
        (fun r => (run_simulation inv rate r 4000 n prob true).getLastD 0)).getD j 0 =
        (run_simulation inv rate (ratios.getD j 0) 4000 n prob true).getLastD 0 :=
    getD_map _ ratios j hjlen
  have hv : v = (run_simulation inv rate (ratios.getD j 0) 4000 n prob true).getLastD 0 :=
    hjv.symm.trans hgj
  refine ⟨j, hjlen, ?_, ?_, ?_⟩
  · unfold optimal_ratio
    rw [hmapM]
    show (np_argmax _).bind _ = _
    rw [hargmax]
    show ratios[j]? = _
    rw [List.getElem?_eq_getElem hjlen, List.getD_eq_getElem _ _ hjlen]
  · intro k hk
    have h1 := hmax k (by rw [List.length_map]; exact hk)
    rw [getD_map _ ratios k hk] at h1
    rw [hv] at h1
    exact h1
  · intro k hk
    have h1 := hfirst k hk
    rw [getD_map _ ratios k (lt_trans hk hjlen)] at h1
    rw [hv] at h1
    exact h1

/-- Witness for C6 with one candidate ratio 0 over one year. -/
theorem optimal_ratio_spec_witness :
    ((1 : ℕ) ≤ 1 ∧ ([(0 : ℝ)] ≠ [])) ∧
    (∃ i, i < [(0 : ℝ)].length ∧
      optimal_ratio 0 1 1 [(0 : ℝ)] 0 = some ([(0 : ℝ)].getD i 0) ∧
      (∀ j, j < [(0 : ℝ)].length →
        (run_simulation 0 1 ([(0 : ℝ)].getD j 0) 4000 1 0 true).getLastD 0 ≤
          (run_simulation 0 1 ([(0 : ℝ)].getD i 0) 4000 1 0 true).getLastD 0) ∧
      (∀ j, j < i →
        (run_simulation 0 1 ([(0 : ℝ)].getD j 0) 4000 1 0 true).getLastD 0 <
          (run_simulation 0 1 ([(0 : ℝ)].getD i 0) 4000 1 0 true).getLastD 0)) :=
  ⟨⟨le_rfl, by simp⟩, optimal_ratio_spec 0 1 0 1 le_rfl [(0 : ℝ)] (by simp)⟩

/-- C7 counterexample: with num_years 0 and the single candidate ratio 0.5,
optimal_ratio yields no ratio at all (the simulated series is empty, so taking
its last element fails), not the first candidate. -/
theorem optimal_ratio_zero_years_counterexample :
    optimal_ratio 10000 1.1 0 [(0.5 : ℝ)] 0 = none ∧
    optimal_ratio 10000 1.1 0 [(0.5 : ℝ)] 0 ≠ some 0.5 := by
  have h : optimal_ratio 10000 1.1 0 [(0.5 : ℝ)] 0 = none := rfl
  refine ⟨h, ?_⟩
  rw [h]
  exact fun hc => Option.noConfusion hc

/-- C7 amended: with num_years 0 every simulated series is empty, so the
final-value lookup fails for every candidate and optimal_ratio surfaces the
error, returning no ratio rather than the first candidate. -/
theorem optimal_ratio_zero_years (inv rate prob : ℝ) (ratios : List ℝ)
    (hne : ratios ≠ []) :
    optimal_ratio inv rate 0 ratios prob = none := by
  obtain ⟨r, rest, rfl⟩ := List.exists_cons_of_ne_nil hne
  have h : (run_simulation inv rate r 4000 0 prob true).getLast? = none := rfl
  unfold optimal_ratio
  rw [List.mapM_cons, h]
  rfl

/-- Witness for the amended C7 on the candidate list with ratios 1 and 2. -/
theorem optimal_ratio_zero_years_witness :
    ([(1 : ℝ), 2] ≠ []) ∧ optimal_ratio 3 1 0 [(1 : ℝ), 2] 1 = none :=
  ⟨by simp, optimal_ratio_zero_years 3 1 1 [(1 : ℝ), 2] (by simp)⟩

/-- C8: with an empty candidate-ratio list, optimal_ratio surfaces the error
immediately and returns no ratio at all. -/
theorem optimal_ratio_empty_ratios (inv rate prob : ℝ) (n : ℕ) :
    optimal_ratio inv rate n [] prob = none := rfl

end




